import Mathlib

/-!
# alpho.go: the scanning engine

A shallow embedding of `src/alpho.go` (rate-paced dispatch, the worker pool, the
per-target probe body and the result sink) together with the properties of it
that the design document states.

Conventions of the embedding.

* Go strings are embedded as `String`. The only string operations of the source
  (`strings.HasPrefix`, `strings.TrimPrefix`, concatenation, `fmt.Sprintf` with `%s`)
  are used with ASCII patterns, for which the byte-wise and the character-wise
  readings coincide.
* `time.Duration` is an `int64` count of nanoseconds; it is embedded as `Int`. The only
  arithmetic of the source on durations is one division whose dividend is `10^9`, so the
  quotient always lies between `-10^9` and `10^9` and never wraps.
* Everything the program obtains from the outside (the lines of the input file, the
  result of `os.Open`, `os.Create`, `os.OpenFile`, `WriteString` and `client.Get`) is an
  explicit argument.
* The sequential code of `main` is embedded as a function to the trace of the events it
  performs; the goroutines of the pool are embedded as a labelled transition system.
-/

namespace Alpho

/-! ## Strings -/

/-- Go `strings.HasPrefix(s, pre)`. -/
def HasPrefix (s pre : String) : Bool :=
  pre.data.isPrefixOf s.data

/-- Go `strings.TrimPrefix(s, pre)`: `s[len(pre):]` when `s` starts with `pre`, else `s`. -/
def TrimPrefix (s pre : String) : String :=
  if HasPrefix s pre then ⟨s.data.drop pre.data.length⟩ else s

/-- Lines 132-135 of `main`: a line that carries neither scheme gets `http://` in front. -/
def addScheme (url : String) : String :=
  if !HasPrefix url "http://" && !HasPrefix url "https://" then "http://" ++ url else url

/-! ## Durations -/

/-- Go `time.Second`, in nanoseconds. -/
def Second : Int := 1000000000

/-- Line 101 of `main`: `interval := time.Second / time.Duration(*rateFlag)`.
Go integer division truncates toward zero and panics on a zero divisor (`none`). -/
def interval (rateFlag : Int) : Option Int :=
  if rateFlag = 0 then none else some (Int.tdiv Second rateFlag)

/-! ## The sequential code of `main` (lines 78-155) -/

/-- What `main` does, in program order. -/
inductive Event where
  /-- Text written to standard output by `fmt.Println`. -/
  | print (s : String)
  /-- One `go worker(jobQueue, &wg, timeout, output)` statement (line 97). -/
  | startWorker
  /-- The call `os.Create(name)` (line 120). -/
  | createOutput (name : String)
  /-- A completed send `jobQueue <- url` (line 138). -/
  | enqueue (url : String)
  /-- The call `printProgressBar(iteration, total, length)` (line 144). -/
  | progress (iteration total length : Nat)
  /-- The call `time.Sleep(d)` (line 147). -/
  | sleep (d : Int)
  /-- The call `wg.Wait()` (line 151). -/
  | wait
  deriving DecidableEq, Repr

/-- How a run of `main` ends. -/
inductive Exit where
  /-- The function `main` returned. -/
  | returned
  /-- Run-time panic `integer divide by zero` at line 101. -/
  | divideByZero
  /-- The send at line 138 never completes: `jobQueue` is unbuffered and no worker receives. -/
  | blockedOnSend
  deriving DecidableEq, Repr

/-- The command-line flags read at lines 25-29. -/
structure Flags where
  fileFlag : String
  rateFlag : Int
  threadsFlag : Int
  timeoutFlag : Int
  outputFlag : String
  deriving Repr

/-- The file system as `main` meets it. -/
structure Env where
  /-- Result of `os.Open(*fileFlag)`: the error text, or the lines `bufio.Scanner` yields. -/
  openInput : Except String (List String)
  /-- Result of `os.Create(*outputFlag)`, consulted only when the flag is not empty. -/
  createOutput : Except String Unit

/-- The trace of a run of `main` and the way it ended. -/
structure Run where
  events : List Event
  exit : Exit
  deriving DecidableEq, Repr

/-- Lines 104-107: `for scanner.Scan() { totalLines++ }`. -/
def countLines : List String → Nat → Nat
  | [], totalLines => totalLines
  | _ :: rest, totalLines => countLines rest (totalLines + 1)

/-- Lines 129-148: the dispatch loop. Each iteration normalises the line, sends it on
`jobQueue`, increments `currentLine`, reports progress and sleeps for `interval`. -/
def dispatchLoop (interval : Int) (totalLines : Nat) : Nat → List String → List Event
  | _, [] => []
  | currentLine, line :: rest =>
    let url := addScheme line
    let currentLine := currentLine + 1
    Event.enqueue url :: Event.progress currentLine totalLines 40 :: Event.sleep interval ::
      dispatchLoop interval totalLines currentLine rest

/-- Lines 78-155 of `main`. The download block of lines 33-76 comes first and either
returns from `main` or falls through to line 78 without touching anything used below. -/
def main (fl : Flags) (env : Env) : Run :=
  match env.openInput with
  | .error err => ⟨[Event.print (err ++ "\n")], Exit.returned⟩
  | .ok lines =>
    let started := List.replicate fl.threadsFlag.toNat Event.startWorker
    match interval fl.rateFlag with
    | none => ⟨started, Exit.divideByZero⟩
    | some d =>
      let totalLines := countLines lines 0
      let scan (pre : List Event) : Run :=
        if fl.threadsFlag ≤ 0 ∧ lines ≠ [] then ⟨pre, Exit.blockedOnSend⟩
        else ⟨pre ++ dispatchLoop d totalLines 0 lines ++ [Event.wait, Event.print "\n"],
              Exit.returned⟩
      if fl.outputFlag != "" then
        match env.createOutput with
        | .error err =>
          ⟨started ++ [Event.createOutput fl.outputFlag,
              Event.print ("Error creating output file: " ++ err ++ "\n")], Exit.returned⟩
        | .ok _ => scan (started ++ [Event.createOutput fl.outputFlag])
      else scan started

/-- The targets sent on `jobQueue`, in order. -/
def enqueued : List Event → List String
  | [] => []
  | Event.enqueue url :: rest => url :: enqueued rest
  | _ :: rest => enqueued rest

/-- The `(currentLine, totalLines)` pairs passed to `printProgressBar`, in order. -/
def progressReports : List Event → List (Nat × Nat)
  | [] => []
  | Event.progress iteration total _ :: rest => (iteration, total) :: progressReports rest
  | _ :: rest => progressReports rest

/-- Whether a send on `jobQueue` occurs in the trace. -/
def hasEnqueue : List Event → Bool
  | [] => false
  | Event.enqueue _ :: _ => true
  | _ :: rest => hasEnqueue rest

/-- The durations of the sleeps that are followed by a later send: the pauses between
successive enqueues. -/
def pausesBetween : List Event → List Int
  | [] => []
  | Event.sleep d :: rest =>
    if hasEnqueue rest then d :: pausesBetween rest else pausesBetween rest
  | _ :: rest => pausesBetween rest

/-- The number of `go worker(...)` statements executed. -/
def workersStarted (events : List Event) : Nat :=
  events.count Event.startWorker

/-! ## The probe and the result sink (lines 157-207) -/

/-- The part of `*http.Response` the program reads. -/
structure Response where
  StatusCode : Nat
  Status : String
  deriving DecidableEq, Repr

/-- Result of `os.OpenFile(name, O_APPEND|O_CREATE|O_WRONLY, 0644)`. -/
inductive OpenResult where
  | ok
  | fail (err : String)
  deriving DecidableEq, Repr

/-- Result of `outputFile.WriteString(status)`: on failure `written` bytes went through. -/
inductive WriteResult where
  | ok
  | fail (written : Nat) (err : String)
  deriving DecidableEq, Repr

/-- What one probe goroutine gets from the outside. -/
structure Sys where
  /-- Result of `client.Get(url)` for a client with the given timeout. -/
  clientGet : Int → String → Except String Response
  openFile : OpenResult
  writeString : WriteResult

/-- What the probe goroutines write to standard output (one entry per print call) and
the content of the output file (`none`: absent). -/
structure World where
  console : List String
  file : Option String
  deriving DecidableEq, Repr

/-- Lines 195-207: an error of `client.Get` is returned as it is, and so is a response;
the status code is not looked at. -/
def httpClientWithTimeout (clientGet : Int → String → Except String Response)
    (url : String) (timeout : Int) : Except String Response :=
  match clientGet timeout url with
  | .error err => .error err
  | .ok resp => .ok resp

/-- Lines 170-172: `fmt.Sprintf("%s %s\n", ipOrDomain, resp.Status)`. -/
def statusLine (url : String) (status : String) : String :=
  let ipOrDomain := TrimPrefix url "http://"
  let ipOrDomain := TrimPrefix ipOrDomain "https://"
  ipOrDomain ++ " " ++ status ++ "\n"

/-- Lines 160-191: the body of the goroutine that `worker` starts for one target. -/
def workerJob (sys : Sys) (timeout : Int) (outputFileName : String) (url : String)
    (w : World) : World :=
  match httpClientWithTimeout sys.clientGet url timeout with
  | .error _ => w
  | .ok resp =>
    let status := statusLine url resp.Status
    let w := { w with console := w.console ++ [status] }
    if outputFileName != "" then
      match sys.openFile with
      | .fail err =>
        { w with console := w.console ++ ["Error opening output file: " ++ err ++ "\n"] }
      | .ok =>
        match sys.writeString with
        | .ok => { w with file := some (w.file.getD "" ++ status) }
        | .fail written err =>
          { console := w.console ++ ["Error writing to output file: " ++ err ++ "\n"]
            file := some (w.file.getD "" ++ ⟨status.data.take written⟩) }
    else w

/-- The goroutine bodies for a sequence of targets, run one after another. -/
def runJobs (timeout : Int) (outputFileName : String) : List (String × Sys) → World → World
  | [], w => w
  | (url, sys) :: rest, w =>
    runJobs timeout outputFileName rest (workerJob sys timeout outputFileName url w)

/-- Whether the probe of a target got a response. -/
def reachable (timeout : Int) (job : String × Sys) : Bool :=
  match httpClientWithTimeout job.2.clientGet job.1 timeout with
  | .error _ => false
  | .ok _ => true

/-- The line printed for a target whose probe got a response. -/
def resultLine (timeout : Int) (job : String × Sys) : Option String :=
  match httpClientWithTimeout job.2.clientGet job.1 timeout with
  | .error _ => none
  | .ok resp => some (statusLine job.1 resp.Status)

/-- The number of newline characters of a text. -/
def lineCount (s : String) : Nat :=
  s.data.count '\n'

/-! ## The worker pool as a transition system (lines 96-98 and 157-193) -/

/-- Where a `worker` goroutine stands. -/
inductive WorkerPc where
  /-- Blocked in `for url := range jobQueue`, ready to receive. -/
  | receiving
  /-- Has received `url` and is about to run `wg.Add(1); go func(url) ...`. -/
  | spawning (url : String)
  deriving DecidableEq, Repr

/-- The dispatcher, the workers and the probes in flight. -/
structure Pool where
  /-- Targets `main` has still to send. -/
  pending : List String
  workers : List WorkerPc
  /-- Probe goroutines started by a worker and not yet finished. -/
  inflight : List String
  deriving DecidableEq, Repr

/-- The atomic steps of the pool. -/
inductive Action where
  /-- The send of `main` meets the receive of worker `i` on the unbuffered channel. -/
  | handoff (i : Nat)
  /-- Worker `i` runs `go func(url)` and goes back to the receive. -/
  | spawn (i : Nat)
  /-- The probe goroutine at position `j` returns. -/
  | finish (j : Nat)
  deriving DecidableEq, Repr

/-- One step; `none` when the action is not enabled. -/
def step (p : Pool) : Action → Option Pool
  | .handoff i =>
    match p.pending, p.workers.get? i with
    | url :: rest, some WorkerPc.receiving =>
      some { p with pending := rest, workers := p.workers.set i (WorkerPc.spawning url) }
    | _, _ => none
  | .spawn i =>
    match p.workers.get? i with
    | some (WorkerPc.spawning url) =>
      some { p with workers := p.workers.set i WorkerPc.receiving,
                    inflight := p.inflight ++ [url] }
    | _ => none
  | .finish j =>
    if j < p.inflight.length then some { p with inflight := p.inflight.eraseIdx j } else none

/-- A schedule: the steps are taken in order; `none` as soon as one is not enabled. -/
def exec (p : Pool) : List Action → Option Pool
  | [] => some p
  | a :: rest =>
    match step p a with
    | none => none
    | some q => exec q rest

/-- The pool when dispatch begins: `threads` workers receiving, nothing in flight. -/
def initPool (threads : Nat) (targets : List String) : Pool :=
  { pending := targets, workers := List.replicate threads WorkerPc.receiving, inflight := [] }

/-- The schedule in which worker 0 takes every target and no probe finishes. -/
def eagerSchedule : List String → List Action
  | [] => []
  | _ :: rest => Action.handoff 0 :: Action.spawn 0 :: eagerSchedule rest

/-- The diagnostics of lines 178-190: one line when opening the output file fails, one
when appending to it fails, none otherwise. -/
def diagnostics (sys : Sys) (outputFileName : String) : List String :=
  if outputFileName != "" then
    match sys.openFile with
    | .fail err => ["Error opening output file: " ++ err ++ "\n"]
    | .ok =>
      match sys.writeString with
      | .ok => []
      | .fail _ err => ["Error writing to output file: " ++ err ++ "\n"]
  else []

/-- A probe that answers `200 OK` in a process that cannot open the output file. -/
def sysOpenFails : Sys :=
  { clientGet := fun _ _ => .ok ⟨200, "200 OK"⟩
    openFile := .fail "too many open files"
    writeString := .ok }

/-- A probe that answers with the given response; the file operations succeed. -/
def sysAnswer (resp : Response) : Sys :=
  { clientGet := fun _ _ => .ok resp, openFile := .ok, writeString := .ok }

/-- A probe that fails with the given error; the file operations succeed. -/
def sysError (err : String) : Sys :=
  { clientGet := fun _ _ => .error err, openFile := .ok, writeString := .ok }


/-- The texts of a list written one after another. -/
def concatAll : List String → String
  | [] => ""
  | s :: rest => s ++ concatAll rest


/-- The default flags with an output path in a directory that does not exist. -/
def flagsBadOutput : Flags :=
  { fileFlag := "cloud.txt", rateFlag := 200, threadsFlag := 100, timeoutFlag := 3000000000,
    outputFlag := "missing/out.txt" }

/-- An input file of one line; creating the output file fails. -/
def envBadOutput : Env :=
  { openInput := .ok ["a.example"]
    createOutput := .error "open missing/out.txt: no such file or directory" }

/-- The default flags. -/
def flagsDefault : Flags :=
  { fileFlag := "cloud.txt", rateFlag := 200, threadsFlag := 100, timeoutFlag := 3000000000,
    outputFlag := "" }

/-- An input file that cannot be opened. -/
def envNoInput : Env :=
  { openInput := .error "open cloud.txt: no such file or directory", createOutput := .ok () }

/-- The input file of the example of the design document. -/
def envThreeLines : Env :=
  { openInput := .ok ["a.example", "http://b.example", "https://c.example"]
    createOutput := .ok () }


/-- For each send on `jobQueue` in the trace, in order, the event that comes immediately
after it (`none` when the send is the last event). -/
def afterEnqueue : List Event → List (Option Event)
  | [] => []
  | Event.enqueue _ :: rest => rest.head? :: afterEnqueue rest
  | _ :: rest => afterEnqueue rest

/-! ## Strings: basic facts -/

theorem HasPrefix_append (pre s : String) : HasPrefix (pre ++ s) pre = true := by
  simp [HasPrefix, String.data_append, List.isPrefixOf_iff_prefix]

theorem TrimPrefix_append (pre s : String) : TrimPrefix (pre ++ s) pre = s := by
  simp [TrimPrefix, HasPrefix_append, String.data_append]

theorem TrimPrefix_of_not (s pre : String) (h : HasPrefix s pre = false) :
    TrimPrefix s pre = s := by
  simp [TrimPrefix, h]

theorem HasPrefix_iff (s pre : String) : HasPrefix s pre = true ↔ ∃ t, s = pre ++ t := by
  constructor
  · intro h
    obtain ⟨t, ht⟩ := List.isPrefixOf_iff_prefix.mp h
    exact ⟨⟨t⟩, String.ext (by simp [String.data_append, ht])⟩
  · rintro ⟨t, rfl⟩
    exact HasPrefix_append pre t

theorem addScheme_of_scheme (line : String)
    (h : HasPrefix line "http://" = true ∨ HasPrefix line "https://" = true) :
    addScheme line = line := by
  rcases h with h | h <;> simp [addScheme, h]

theorem addScheme_of_bare (line : String) (h1 : HasPrefix line "http://" = false)
    (h2 : HasPrefix line "https://" = false) : addScheme line = "http://" ++ line := by
  simp [addScheme, h1, h2]

theorem addScheme_eq (line : String) :
    addScheme line =
      if HasPrefix line "http://" = true ∨ HasPrefix line "https://" = true then line
      else "http://" ++ line := by
  by_cases h1 : HasPrefix line "http://" = true <;>
    by_cases h2 : HasPrefix line "https://" = true <;> simp [addScheme, h1, h2]

/-! ## The dispatch loop -/

theorem enqueued_dispatchLoop (d : Int) (totalLines : Nat) (lines : List String) :
    ∀ currentLine, enqueued (dispatchLoop d totalLines currentLine lines) = lines.map addScheme := by
  induction lines with
  | nil => intro _; rfl
  | cons line rest ih =>
    intro currentLine
    simp [dispatchLoop, enqueued, ih]

/-! ## The printed line -/

theorem statusLine_addScheme (line status : String) (h1 : HasPrefix line "http://" = false)
    (h2 : HasPrefix line "https://" = false) :
    statusLine (addScheme line) status = line ++ " " ++ status ++ "\n" := by
  simp [statusLine, addScheme_of_bare line h1 h2, TrimPrefix_append, TrimPrefix_of_not line _ h2]

theorem workerJob_error (sys : Sys) (timeout : Int) (out url err : String) (w : World)
    (h : sys.clientGet timeout url = .error err) : workerJob sys timeout out url w = w := by
  simp [workerJob, httpClientWithTimeout, h]

theorem workerJob_console (sys : Sys) (timeout : Int) (out url : String) (resp : Response)
    (w : World) (h : sys.clientGet timeout url = .ok resp) :
    (workerJob sys timeout out url w).console =
      w.console ++ statusLine url resp.Status :: diagnostics sys out := by
  simp only [workerJob, httpClientWithTimeout, h, diagnostics]
  by_cases ho : (out != "") = true
  · simp only [ho, if_true]
    cases sys.openFile with
    | ok =>
      cases sys.writeString with
      | ok => simp
      | fail n e => simp
    | fail e => simp
  · simp [ho]

theorem diagnostics_length_le (sys : Sys) (out : String) : (diagnostics sys out).length ≤ 1 := by
  unfold diagnostics
  split
  · split
    · simp
    · split <;> simp
  · simp

theorem diagnostics_of_ok (sys : Sys) (out : String)
    (h : out = "" ∨ (sys.openFile = .ok ∧ sys.writeString = .ok)) : diagnostics sys out = [] := by
  rcases h with h | ⟨h1, h2⟩
  · simp [diagnostics, h]
  · simp [diagnostics, h1, h2]

/-- C8. For an input line that starts with neither `http://` nor `https://`, the two
`TrimPrefix` calls of the worker undo the normalisation of `main`: the host is the line
itself, the line built for a status is `line ++ " " ++ status ++ "\n"`, and that is the
line the goroutine body prints when the probe of the target answers. -/
theorem host_of_bare_line (line : String) (h1 : HasPrefix line "http://" = false)
    (h2 : HasPrefix line "https://" = false) :
    TrimPrefix (TrimPrefix (addScheme line) "http://") "https://" = line
      ∧ (∀ status : String, statusLine (addScheme line) status = line ++ " " ++ status ++ "\n")
      ∧ ∀ (sys : Sys) (timeout : Int) (out : String) (w : World) (resp : Response),
          sys.clientGet timeout (addScheme line) = .ok resp →
          (workerJob sys timeout out (addScheme line) w).console =
            w.console ++ (line ++ " " ++ resp.Status ++ "\n") :: diagnostics sys out := by
  refine ⟨?_, fun status => statusLine_addScheme line status h1 h2, ?_⟩
  · rw [addScheme_of_bare line h1 h2, TrimPrefix_append, TrimPrefix_of_not line _ h2]
  · intro sys timeout out w resp h
    rw [workerJob_console sys timeout out _ resp w h, statusLine_addScheme line _ h1 h2]

/-- C8, at the line `a.example` answering `200 OK`: the console shows `a.example 200 OK`. -/
theorem host_of_bare_line_witness :
    statusLine (addScheme "a.example") "200 OK" = "a.example 200 OK\n"
      ∧ (workerJob (sysAnswer ⟨200, "200 OK"⟩) 3000000000 "" (addScheme "a.example")
          ⟨[], none⟩).console = ["a.example 200 OK\n"] := by
  have h := host_of_bare_line "a.example" (by decide) (by decide)
  refine ⟨h.2.1 "200 OK", ?_⟩
  have h3 := h.2.2 (sysAnswer ⟨200, "200 OK"⟩) 3000000000 "" ⟨[], none⟩ ⟨200, "200 OK"⟩ rfl
  rw [h3]
  decide

theorem string_append_right_cancel (a b c : String) (h : a ++ c = b ++ c) : a = b := by
  apply String.ext
  have hd := congrArg String.data h
  simp only [String.data_append] at hd
  exact List.append_cancel_right hd

/-- C2 as stated fails at the target `http://https://x`, which `main` sends as it is
because it starts with `http://`: both `TrimPrefix` calls fire, so the printed host is
`x`, although the target is neither `http://x` nor `https://x`. -/
theorem statusLine_strips_twice :
    addScheme "http://https://x" = "http://https://x"
      ∧ statusLine "http://https://x" "200 OK" = "x" ++ " " ++ "200 OK" ++ "\n"
      ∧ (workerJob (sysAnswer ⟨200, "200 OK"⟩) 3000000000 "" "http://https://x"
          ⟨[], none⟩).console = ["x 200 OK\n"]
      ∧ ¬ (∀ target status : String,
            (HasPrefix target "http://" = true ∨ HasPrefix target "https://" = true) →
            ∃ host : String, statusLine target status = host ++ " " ++ status ++ "\n"
              ∧ (target = "http://" ++ host ∨ target = "https://" ++ host)) := by
  refine ⟨by decide, by decide, by decide, fun h => ?_⟩
  obtain ⟨host, hl, ht⟩ := h "http://https://x" "200 OK" (Or.inl (by decide))
  have hx : statusLine "http://https://x" "200 OK" = "x" ++ (" " ++ "200 OK" ++ "\n") := by
    decide
  rw [hx, String.append_assoc host, String.append_assoc host] at hl
  have hh : host = "x" := (string_append_right_cancel "x" host _ hl).symm
  subst hh
  revert ht
  decide

/-- C2, amended. For every target that starts with `http://` or `https://` and every
status text, the line built by the worker is `host ++ " " ++ status ++ "\n"`, where `host`
is the target with a leading `http://` removed and then a leading `https://` removed from
what is left: the target is `https://` followed by the host, or `http://` followed by a
host that does not start with `https://`, or `http://https://` followed by the host. That
line is what the goroutine body prints first when the probe answers. -/
theorem statusLine_host (target status : String)
    (h : HasPrefix target "http://" = true ∨ HasPrefix target "https://" = true) :
    ∃ host : String, statusLine target status = host ++ " " ++ status ++ "\n"
      ∧ (target = "https://" ++ host
          ∨ (target = "http://" ++ host ∧ HasPrefix host "https://" = false)
          ∨ target = "http://" ++ ("https://" ++ host))
      ∧ ∀ (sys : Sys) (timeout : Int) (out : String) (w : World) (resp : Response),
          sys.clientGet timeout target = .ok resp → resp.Status = status →
          (workerJob sys timeout out target w).console =
            w.console ++ (host ++ " " ++ status ++ "\n") :: diagnostics sys out := by
  have key : ∃ host : String, statusLine target status = host ++ " " ++ status ++ "\n"
      ∧ (target = "https://" ++ host
          ∨ (target = "http://" ++ host ∧ HasPrefix host "https://" = false)
          ∨ target = "http://" ++ ("https://" ++ host)) := by
    by_cases h1 : HasPrefix target "http://" = true
    · obtain ⟨rest, rfl⟩ := (HasPrefix_iff target "http://").mp h1
      by_cases h2 : HasPrefix rest "https://" = true
      · obtain ⟨host, rfl⟩ := (HasPrefix_iff rest "https://").mp h2
        exact ⟨host, by simp [statusLine, TrimPrefix_append], Or.inr (Or.inr rfl)⟩
      · have h2f : HasPrefix rest "https://" = false := by simpa using h2
        exact ⟨rest, by simp [statusLine, TrimPrefix_append, TrimPrefix_of_not rest _ h2f],
          Or.inr (Or.inl ⟨rfl, h2f⟩)⟩
    · have h1f : HasPrefix target "http://" = false := by simpa using h1
      have h2 := h.resolve_left h1
      obtain ⟨host, rfl⟩ := (HasPrefix_iff target "https://").mp h2
      exact ⟨host, by simp [statusLine, TrimPrefix_of_not _ _ h1f, TrimPrefix_append],
        Or.inl rfl⟩
  obtain ⟨host, hl, ht⟩ := key
  refine ⟨host, hl, ht, ?_⟩
  intro sys timeout out w resp hg hs
  rw [workerJob_console sys timeout out target resp w hg, hs, hl]

/-- C2, amended, at the target `https://c.example` answering `200 OK`. -/
theorem statusLine_host_witness :
    ∃ host : String, statusLine "https://c.example" "200 OK" = host ++ " " ++ "200 OK" ++ "\n"
      ∧ ("https://c.example" = "https://" ++ host
          ∨ ("https://c.example" = "http://" ++ host ∧ HasPrefix host "https://" = false)
          ∨ "https://c.example" = "http://" ++ ("https://" ++ host)) :=
  (statusLine_host "https://c.example" "200 OK" (Or.inr (by decide))).imp
    fun _ hh => ⟨hh.1, hh.2.1⟩

/-- C3 as stated fails: when an output file is configured and cannot be opened, a probe
that got a response leaves two lines on the console, the result and a diagnostic. -/
theorem workerJob_two_console_lines :
    (workerJob sysOpenFails 3000000000 "out.txt" "http://a.example" ⟨[], some ""⟩).console =
        ["a.example 200 OK\n", "Error opening output file: too many open files\n"]
      ∧ ¬ (∀ (sys : Sys) (timeout : Int) (out url : String) (w : World) (resp : Response),
            sys.clientGet timeout url = .ok resp →
            (workerJob sys timeout out url w).console.length = w.console.length + 1) := by
  refine ⟨by decide, fun h => ?_⟩
  have h2 := h sysOpenFails 3000000000 "out.txt" "http://a.example" ⟨[], some ""⟩
    ⟨200, "200 OK"⟩ rfl
  revert h2
  decide

/-- C3, amended. When the probe returned a response, whatever its status code, the
goroutine body prints exactly one result line, followed by at most one diagnostic line;
there is a diagnostic exactly when an output file is configured and opening it or
appending to it fails, so without such a failure exactly one line reaches the console.
When the probe returned an error, nothing at all happens: console and file are
unchanged. -/
theorem workerJob_outputs (sys : Sys) (timeout : Int) (out url : String) (w : World) :
    (∀ resp : Response, sys.clientGet timeout url = .ok resp →
        (workerJob sys timeout out url w).console =
            w.console ++ statusLine url resp.Status :: diagnostics sys out
          ∧ (diagnostics sys out).length ≤ 1
          ∧ (diagnostics sys out = [] ↔
              (out = "" ∨ (sys.openFile = .ok ∧ sys.writeString = .ok)))
          ∧ ((out = "" ∨ (sys.openFile = .ok ∧ sys.writeString = .ok)) →
              (workerJob sys timeout out url w).console.length = w.console.length + 1))
      ∧ (∀ err : String, sys.clientGet timeout url = .error err →
          workerJob sys timeout out url w = w) := by
  refine ⟨fun resp h => ?_, fun err h => workerJob_error sys timeout out url err w h⟩
  refine ⟨workerJob_console sys timeout out url resp w h, diagnostics_length_le sys out, ?_, ?_⟩
  · constructor
    · intro hd
      by_cases ho : out = ""
      · exact Or.inl ho
      · right
        cases hop : sys.openFile with
        | fail e => simp [diagnostics, ho, hop] at hd
        | ok =>
          cases hwr : sys.writeString with
          | fail n e => simp [diagnostics, ho, hop, hwr] at hd
          | ok => exact ⟨rfl, rfl⟩
    · exact diagnostics_of_ok sys out
  · intro hok
    rw [workerJob_console sys timeout out url resp w h, diagnostics_of_ok sys out hok]
    simp

/-- C3, amended, at a probe answering `503` with the file operations succeeding, and at a
probe that times out. -/
theorem workerJob_outputs_witness :
    (workerJob (sysAnswer ⟨503, "503 Service Unavailable"⟩) 3000000000 "out.txt"
        "https://b.example" ⟨[], some ""⟩).console.length = 0 + 1
      ∧ workerJob (sysError "context deadline exceeded") 3000000000 "out.txt"
          "https://b.example" ⟨[], some ""⟩ = ⟨[], some ""⟩ :=
  ⟨((workerJob_outputs (sysAnswer ⟨503, "503 Service Unavailable"⟩) 3000000000 "out.txt"
      "https://b.example" ⟨[], some ""⟩).1 ⟨503, "503 Service Unavailable"⟩ rfl).2.2.2
      (Or.inr ⟨rfl, rfl⟩),
    (workerJob_outputs (sysError "context deadline exceeded") 3000000000 "out.txt"
      "https://b.example" ⟨[], some ""⟩).2 "context deadline exceeded" rfl⟩

/-! ## The output file -/

theorem concatAll_append (xs ys : List String) :
    concatAll (xs ++ ys) = concatAll xs ++ concatAll ys := by
  induction xs with
  | nil => simp [concatAll]
  | cons x rest ih => simp [concatAll, ih, String.append_assoc]

theorem lineCount_append (s t : String) : lineCount (s ++ t) = lineCount s + lineCount t := by
  simp [lineCount, String.data_append]

theorem TrimPrefix_no_newline (s pre : String) (h : '\n' ∉ s.data) :
    '\n' ∉ (TrimPrefix s pre).data := by
  unfold TrimPrefix
  split
  · exact fun hm => h (List.mem_of_mem_drop hm)
  · exact h

theorem lineCount_statusLine (url status : String) (hu : '\n' ∉ url.data)
    (hs : '\n' ∉ status.data) : lineCount (statusLine url status) = 1 := by
  have h1 := TrimPrefix_no_newline (TrimPrefix url "http://") "https://"
    (TrimPrefix_no_newline url "http://" hu)
  simp only [statusLine, lineCount, String.data_append, List.count_append] at *
  rw [List.count_eq_zero_of_not_mem h1, List.count_eq_zero_of_not_mem hs]
  decide

theorem workerJob_ok (sys : Sys) (timeout : Int) (out url : String) (resp : Response)
    (cs : List String) (c : String) (hout : out ≠ "")
    (h : sys.clientGet timeout url = .ok resp) (ho : sys.openFile = .ok)
    (hw : sys.writeString = .ok) :
    workerJob sys timeout out url ⟨cs, some c⟩ =
      ⟨cs ++ [statusLine url resp.Status], some (c ++ statusLine url resp.Status)⟩ := by
  simp [workerJob, httpClientWithTimeout, h, ho, hw, hout]

theorem runJobs_ok (timeout : Int) (out : String) (hout : out ≠ "") (jobs : List (String × Sys)) :
    ∀ (cs : List String) (c : String),
      (∀ job ∈ jobs, job.2.openFile = .ok ∧ job.2.writeString = .ok) →
      runJobs timeout out jobs ⟨cs, some c⟩ =
        ⟨cs ++ jobs.filterMap (resultLine timeout),
          some (c ++ concatAll (jobs.filterMap (resultLine timeout)))⟩ := by
  induction jobs with
  | nil => intro cs c _; simp [runJobs, concatAll]
  | cons job rest ih =>
    intro cs c hfs
    obtain ⟨url, sys⟩ := job
    have hj := hfs (url, sys) (List.mem_cons_self _ _)
    have hr : ∀ j ∈ rest, j.2.openFile = .ok ∧ j.2.writeString = .ok :=
      fun j hm => hfs j (List.mem_cons_of_mem _ hm)
    cases hg : sys.clientGet timeout url with
    | error err =>
      have hn : resultLine timeout (url, sys) = none := by
        simp [resultLine, httpClientWithTimeout, hg]
      rw [runJobs, workerJob_error sys timeout out url err _ hg, ih cs c hr,
        List.filterMap_cons_none hn]
    | ok resp =>
      have hn : resultLine timeout (url, sys) = some (statusLine url resp.Status) := by
        simp [resultLine, httpClientWithTimeout, hg]
      rw [runJobs, workerJob_ok sys timeout out url resp cs c hout hg hj.1 hj.2, ih _ _ hr,
        List.filterMap_cons_some hn]
      simp [concatAll, String.append_assoc]

theorem length_filterMap_resultLine (timeout : Int) (jobs : List (String × Sys)) :
    (jobs.filterMap (resultLine timeout)).length = jobs.countP (reachable timeout) := by
  induction jobs with
  | nil => rfl
  | cons job rest ih =>
    cases hg : httpClientWithTimeout job.2.clientGet job.1 timeout with
    | error err =>
      have hn : resultLine timeout job = none := by simp [resultLine, hg]
      have hb : reachable timeout job = false := by simp [reachable, hg]
      rw [List.filterMap_cons_none hn, ih, List.countP_cons_of_neg _ _ (by simp [hb])]
    | ok resp =>
      have hn : resultLine timeout job = some (statusLine job.1 resp.Status) := by
        simp [resultLine, hg]
      have hb : reachable timeout job = true := by simp [reachable, hg]
      rw [List.filterMap_cons_some hn, List.length_cons, ih, List.countP_cons_of_pos _ _ hb]

theorem lineCount_concat_resultLine (timeout : Int) (jobs : List (String × Sys))
    (hnl : ∀ job ∈ jobs, '\n' ∉ job.1.data ∧
      ∀ resp, job.2.clientGet timeout job.1 = .ok resp → '\n' ∉ resp.Status.data) :
    lineCount (concatAll (jobs.filterMap (resultLine timeout))) =
      jobs.countP (reachable timeout) := by
  induction jobs with
  | nil => rfl
  | cons job rest ih =>
    have hr := ih (fun j hm => hnl j (List.mem_cons_of_mem _ hm))
    have hj := hnl job (List.mem_cons_self _ _)
    cases hg : job.2.clientGet timeout job.1 with
    | error err =>
      have hn : resultLine timeout job = none := by
        simp [resultLine, httpClientWithTimeout, hg]
      have hb : reachable timeout job = false := by
        simp [reachable, httpClientWithTimeout, hg]
      rw [List.filterMap_cons_none hn, hr, List.countP_cons_of_neg _ _ (by simp [hb])]
    | ok resp =>
      have hn : resultLine timeout job = some (statusLine job.1 resp.Status) := by
        simp [resultLine, httpClientWithTimeout, hg]
      have hb : reachable timeout job = true := by
        simp [reachable, httpClientWithTimeout, hg]
      rw [List.filterMap_cons_some hn, concatAll, lineCount_append, hr,
        lineCount_statusLine _ _ hj.1 (hj.2 resp hg), List.countP_cons_of_pos _ _ hb]
      omega

/-- C6. With an output path configured and every open and append succeeding, running the
goroutine bodies of any sequence of targets one after another from the empty output file
leaves in the file exactly the lines printed to the console, in the same order: the
line of each target whose probe got a response and nothing for the others. There are as
many console lines as reachable targets and, targets and status texts being free of
newlines, the file has that many lines. -/
theorem runJobs_file (timeout : Int) (out : String) (jobs : List (String × Sys))
    (hout : out ≠ "")
    (hfs : ∀ job ∈ jobs, job.2.openFile = .ok ∧ job.2.writeString = .ok) :
    (runJobs timeout out jobs ⟨[], some ""⟩).console = jobs.filterMap (resultLine timeout)
      ∧ (runJobs timeout out jobs ⟨[], some ""⟩).file =
          some (concatAll (runJobs timeout out jobs ⟨[], some ""⟩).console)
      ∧ (runJobs timeout out jobs ⟨[], some ""⟩).console.length =
          jobs.countP (reachable timeout)
      ∧ ((∀ job ∈ jobs, '\n' ∉ job.1.data ∧
            ∀ resp, job.2.clientGet timeout job.1 = .ok resp → '\n' ∉ resp.Status.data) →
          ∃ content, (runJobs timeout out jobs ⟨[], some ""⟩).file = some content
            ∧ lineCount content = jobs.countP (reachable timeout)) := by
  have h := runJobs_ok timeout out hout jobs [] "" hfs
  have he : ("" : String) ++ concatAll (jobs.filterMap (resultLine timeout)) =
      concatAll (jobs.filterMap (resultLine timeout)) := by
    apply String.ext; simp [String.data_append]
  rw [h, he]
  refine ⟨by simp, by simp, by simpa using length_filterMap_resultLine timeout jobs, ?_⟩
  intro hnl
  exact ⟨_, rfl, lineCount_concat_resultLine timeout jobs hnl⟩

/-- C6, at three targets of which the second does not answer: the file holds the two
console lines. -/
theorem runJobs_file_witness :
    (runJobs 3000000000 "out.txt"
        [("http://a.example", sysAnswer ⟨200, "200 OK"⟩),
         ("http://b.example", sysError "connection refused"),
         ("https://c.example", sysAnswer ⟨404, "404 Not Found"⟩)] ⟨[], some ""⟩).file =
      some (concatAll (runJobs 3000000000 "out.txt"
        [("http://a.example", sysAnswer ⟨200, "200 OK"⟩),
         ("http://b.example", sysError "connection refused"),
         ("https://c.example", sysAnswer ⟨404, "404 Not Found"⟩)] ⟨[], some ""⟩).console)
      ∧ ∃ content, (runJobs 3000000000 "out.txt"
        [("http://a.example", sysAnswer ⟨200, "200 OK"⟩),
         ("http://b.example", sysError "connection refused"),
         ("https://c.example", sysAnswer ⟨404, "404 Not Found"⟩)] ⟨[], some ""⟩).file =
          some content ∧ lineCount content = 2 := by
  have h := runJobs_file 3000000000 "out.txt"
    [("http://a.example", sysAnswer ⟨200, "200 OK"⟩),
     ("http://b.example", sysError "connection refused"),
     ("https://c.example", sysAnswer ⟨404, "404 Not Found"⟩)]
    (by decide) (by simp [sysAnswer, sysError])
  refine ⟨h.2.1, ?_⟩
  obtain ⟨content, hc, hl⟩ := h.2.2.2 (by
    intro job hj
    simp only [List.mem_cons, List.mem_singleton, List.not_mem_nil, or_false] at hj
    rcases hj with rfl | rfl | rfl
    · exact ⟨by decide, fun resp hr => by cases hr; decide⟩
    · exact ⟨by decide, fun resp hr => by cases hr⟩
    · exact ⟨by decide, fun resp hr => by cases hr; decide⟩)
  exact ⟨content, hc, by rw [hl]; rfl⟩

/-! ## Startup errors -/

theorem workersStarted_replicate (n : Nat) (rest : List Event)
    (h : Event.startWorker ∉ rest) :
    workersStarted (List.replicate n Event.startWorker ++ rest) = n := by
  simp [workersStarted, List.count_append, List.count_replicate_self,
    List.count_eq_zero_of_not_mem h]

theorem enqueued_replicate (n : Nat) (rest : List Event) :
    enqueued (List.replicate n Event.startWorker ++ rest) = enqueued rest := by
  induction n with
  | zero => simp
  | succ k ih => simpa [List.replicate_succ, enqueued] using ih

/-- C7 as stated fails: with the default 100 threads and an output file that cannot be
created, `main` returns after having started its 100 workers. -/
theorem main_workers_before_create_error :
    (main flagsBadOutput envBadOutput).exit = Exit.returned
      ∧ workersStarted (main flagsBadOutput envBadOutput).events = 100
      ∧ ¬ (∀ (fl : Flags) (env : Env),
            ((∃ err, env.openInput = .error err) ∨
              (fl.outputFlag ≠ "" ∧ ∃ err, env.createOutput = .error err)) →
            workersStarted (main fl env).events = 0) := by
  have h1 : (main flagsBadOutput envBadOutput).exit = Exit.returned := by decide
  have h2 : workersStarted (main flagsBadOutput envBadOutput).events = 100 := by
    simp [main, flagsBadOutput, envBadOutput, interval, workersStarted, List.count_append,
      List.count_replicate_self]
  refine ⟨h1, h2, fun h => ?_⟩
  have h3 := h flagsBadOutput envBadOutput (Or.inr ⟨by decide, _, rfl⟩)
  omega

/-- C7, amended. When the input file cannot be opened, `main` prints the error and
returns with no worker started. When the input file opens and the configured output
file cannot be created, `main` prints a diagnostic and returns after the `threadsFlag`
workers have been started (they are started at lines 96-98, the file is created at
line 120) and before any target is sent: no probe is started. -/
theorem main_fatal (fl : Flags) (env : Env) :
    (∀ err : String, env.openInput = .error err →
        main fl env = ⟨[Event.print (err ++ "\n")], Exit.returned⟩
          ∧ workersStarted (main fl env).events = 0
          ∧ enqueued (main fl env).events = [])
      ∧ (∀ (lines : List String) (err : String), env.openInput = .ok lines →
          fl.rateFlag ≠ 0 → fl.outputFlag ≠ "" → env.createOutput = .error err →
          main fl env =
              ⟨List.replicate fl.threadsFlag.toNat Event.startWorker ++
                [Event.createOutput fl.outputFlag,
                  Event.print ("Error creating output file: " ++ err ++ "\n")],
                Exit.returned⟩
            ∧ workersStarted (main fl env).events = fl.threadsFlag.toNat
            ∧ enqueued (main fl env).events = []) := by
  constructor
  · intro err h
    have hm : main fl env = ⟨[Event.print (err ++ "\n")], Exit.returned⟩ := by
      simp [main, h]
    rw [hm]
    exact ⟨rfl, by simp [workersStarted], rfl⟩
  · intro lines err h hr ho hc
    have hm : main fl env =
        ⟨List.replicate fl.threadsFlag.toNat Event.startWorker ++
          [Event.createOutput fl.outputFlag,
            Event.print ("Error creating output file: " ++ err ++ "\n")],
          Exit.returned⟩ := by
      simp [main, h, interval, hr, ho, hc]
    rw [hm]
    refine ⟨rfl, workersStarted_replicate _ _ (by simp), ?_⟩
    rw [enqueued_replicate]
    rfl

/-- C7, amended, at a missing input file and at an output file that cannot be created. -/
theorem main_fatal_witness :
    workersStarted (main flagsDefault envNoInput).events = 0
      ∧ workersStarted (main flagsBadOutput envBadOutput).events =
          flagsBadOutput.threadsFlag.toNat
      ∧ enqueued (main flagsBadOutput envBadOutput).events = [] :=
  ⟨((main_fatal flagsDefault envNoInput).1 _ rfl).2.1,
    ((main_fatal flagsBadOutput envBadOutput).2 _ _ rfl (by decide) (by decide) rfl).2.1,
    ((main_fatal flagsBadOutput envBadOutput).2 _ _ rfl (by decide) (by decide) rfl).2.2⟩

/-! ## Progress -/

theorem countLines_eq (lines : List String) :
    ∀ totalLines, countLines lines totalLines = totalLines + lines.length := by
  induction lines with
  | nil => intro _; rfl
  | cons line rest ih => intro t; simp [countLines, ih]; omega

theorem progressReports_append (xs ys : List Event) :
    progressReports (xs ++ ys) = progressReports xs ++ progressReports ys := by
  induction xs with
  | nil => rfl
  | cons e rest ih => cases e <;> simp [progressReports, ih]

theorem progressReports_replicate (n : Nat) :
    progressReports (List.replicate n Event.startWorker) = [] := by
  induction n with
  | zero => rfl
  | succ k ih => simpa [List.replicate_succ, progressReports] using ih

theorem progressReports_dispatchLoop (d : Int) (totalLines : Nat) (lines : List String) :
    ∀ currentLine, progressReports (dispatchLoop d totalLines currentLine lines) =
      (List.range lines.length).map (fun k => (currentLine + k + 1, totalLines)) := by
  induction lines with
  | nil => intro _; rfl
  | cons line rest ih =>
    intro c
    simp only [dispatchLoop, progressReports, enqueued, ih, List.length_cons, List.range_succ_eq_map,
      List.map_cons, List.map_map]
    refine congrArg₂ _ (by simp) (List.map_congr_left fun k _ => ?_)
    simp only [Function.comp, Prod.mk.injEq, and_true]
    omega


theorem enqueued_append (xs ys : List Event) :
    enqueued (xs ++ ys) = enqueued xs ++ enqueued ys := by
  induction xs with
  | nil => rfl
  | cons e rest ih => cases e <;> simp [enqueued, ih]

theorem main_scan (fl : Flags) (env : Env) (lines : List String) (d : Int)
    (hopen : env.openInput = .ok lines) (hrate : interval fl.rateFlag = some d)
    (hthreads : 0 < fl.threadsFlag)
    (hout : fl.outputFlag = "" ∨ ∃ u, env.createOutput = .ok u) :
    ∃ pre, progressReports pre = [] ∧ enqueued pre = [] ∧
      main fl env = ⟨pre ++ dispatchLoop d (countLines lines 0) 0 lines ++
        [Event.wait, Event.print "\n"], Exit.returned⟩ := by
  have ht : ¬ (fl.threadsFlag ≤ 0) := by omega
  by_cases ho : fl.outputFlag = ""
  · refine ⟨List.replicate fl.threadsFlag.toNat Event.startWorker,
      progressReports_replicate _, ?_, ?_⟩
    · simpa using enqueued_replicate fl.threadsFlag.toNat []
    · simp [main, hopen, hrate, ho, ht]
  · obtain ⟨u, hu⟩ := hout.resolve_left ho
    refine ⟨List.replicate fl.threadsFlag.toNat Event.startWorker ++
      [Event.createOutput fl.outputFlag], ?_, ?_, ?_⟩
    · rw [progressReports_append, progressReports_replicate]; rfl
    · rw [enqueued_replicate]; rfl
    · simp [main, hopen, hrate, ho, hu, ht]

/-- C1. Whatever the interval, the total and the starting line number, the targets the
dispatch loop sends on `jobQueue` are the input lines in order, each one unchanged when
it starts with `http://` or `https://` and with `http://` in front otherwise; in
particular there are as many targets as lines and the i-th target comes from the i-th
line. These are the targets sent by every run of `main` that opens its files, has a
non-zero rate and at least one worker to receive them. -/
theorem dispatchLoop_targets (d : Int) (totalLines currentLine : Nat) (lines : List String) :
    enqueued (dispatchLoop d totalLines currentLine lines) =
        lines.map (fun line =>
          if HasPrefix line "http://" = true ∨ HasPrefix line "https://" = true then line
          else "http://" ++ line)
      ∧ (enqueued (dispatchLoop d totalLines currentLine lines)).length = lines.length
      ∧ (∀ i : Nat, (enqueued (dispatchLoop d totalLines currentLine lines))[i]? =
          (lines[i]?).map (fun line =>
            if HasPrefix line "http://" = true ∨ HasPrefix line "https://" = true then line
            else "http://" ++ line))
      ∧ (∀ (fl : Flags) (env : Env), env.openInput = .ok lines →
          interval fl.rateFlag = some d → 0 < fl.threadsFlag →
          (fl.outputFlag = "" ∨ ∃ u, env.createOutput = .ok u) →
          enqueued (main fl env).events =
            lines.map (fun line =>
              if HasPrefix line "http://" = true ∨ HasPrefix line "https://" = true then line
              else "http://" ++ line)) := by
  have hf : ∀ c t, enqueued (dispatchLoop d t c lines) =
      lines.map (fun line =>
        if HasPrefix line "http://" = true ∨ HasPrefix line "https://" = true then line
        else "http://" ++ line) := by
    intro c t
    rw [enqueued_dispatchLoop]
    exact List.map_congr_left (fun line _ => addScheme_eq line)
  have h := hf currentLine totalLines
  refine ⟨h, ?_, ?_, ?_⟩
  · rw [h, List.length_map]
  · intro i
    rw [h, List.getElem?_map]
  · intro fl env hopen hrate hthreads hout
    obtain ⟨pre, _, hpre, hm⟩ := main_scan fl env lines d hopen hrate hthreads hout
    rw [hm]
    simp only []
    rw [enqueued_append, enqueued_append, hpre, hf]
    simp [enqueued]

/-- C1, at the three-line input of the design document under the default flags. -/
theorem dispatchLoop_targets_witness :
    enqueued (main flagsDefault envThreeLines).events =
      ["http://a.example", "http://b.example", "https://c.example"] := by
  have h := (dispatchLoop_targets 5000000 3 0
    ["a.example", "http://b.example", "https://c.example"]).2.2.2
    flagsDefault envThreeLines rfl (by decide) (by decide) (Or.inl rfl)
  rw [h]
  decide

theorem dispatchLoop_trace (d : Int) (totalLines : Nat) (lines : List String) :
    ∀ currentLine, dispatchLoop d totalLines currentLine lines =
      (lines.enumFrom currentLine).flatMap (fun p =>
        [Event.enqueue (addScheme p.2), Event.progress (p.1 + 1) totalLines 40,
          Event.sleep d]) := by
  induction lines with
  | nil => intro _; rfl
  | cons line rest ih =>
    intro c
    simp [dispatchLoop, List.enumFrom_cons, List.flatMap_cons, ih]

theorem afterEnqueue_of_no_enqueue (pre rest : List Event) (h : enqueued pre = []) :
    afterEnqueue (pre ++ rest) = afterEnqueue rest := by
  induction pre with
  | nil => rfl
  | cons e tail ih =>
    cases e <;> simp_all [enqueued, afterEnqueue]

theorem afterEnqueue_dispatchLoop (d : Int) (totalLines : Nat) (tail : List Event)
    (lines : List String) :
    ∀ currentLine, afterEnqueue (dispatchLoop d totalLines currentLine lines ++ tail) =
      (List.range lines.length).map
          (fun k => some (Event.progress (currentLine + k + 1) totalLines 40)) ++
        afterEnqueue tail := by
  induction lines with
  | nil => intro _; rfl
  | cons line rest ih =>
    intro c
    have hu : dispatchLoop d totalLines c (line :: rest) ++ tail =
        Event.enqueue (addScheme line) :: Event.progress (c + 1) totalLines 40 ::
          Event.sleep d :: (dispatchLoop d totalLines (c + 1) rest ++ tail) := rfl
    rw [hu]
    simp only [afterEnqueue, List.head?_cons]
    rw [ih (c + 1), List.length_cons, List.range_succ_eq_map, List.map_cons, List.map_map,
      List.cons_append]
    refine congrArg₂ _ rfl (congrArg₂ _ (List.map_congr_left fun k _ => ?_) rfl)
    simp only [Function.comp, Option.some.injEq, Event.progress.injEq, and_true]
    omega

/-- C9. For an input of `N ≥ 1` lines, counted by the pre-pass and then dispatched, the
trace of the dispatch loop is, for the k-th line, the send of its target, then the call
`printProgressBar(k, N, 40)`, then the sleep: the event that comes right after the k-th
enqueue is the progress report `(k, N)`. The pairs passed to `printProgressBar` are
therefore `(1, N), (2, N), ..., (N, N)`: every report `(k, N)` has `1 ≤ k ≤ N`, so the
fraction `k / N` is at most 1, and the last report is `(N, N)`. The same reports, each
right after its enqueue, are made by every run of `main` that opens its files, has a
non-zero rate and at least one worker. -/
theorem progress_sequence (d : Int) (lines : List String) (hN : 1 ≤ lines.length) :
    progressReports (dispatchLoop d (countLines lines 0) 0 lines) =
        (List.range lines.length).map (fun k => (k + 1, lines.length))
      ∧ (∀ p ∈ progressReports (dispatchLoop d (countLines lines 0) 0 lines),
          1 ≤ p.1 ∧ p.1 ≤ p.2 ∧ p.2 = lines.length ∧ (p.1 : ℚ) / (p.2 : ℚ) ≤ 1)
      ∧ (progressReports (dispatchLoop d (countLines lines 0) 0 lines)).getLast? =
          some (lines.length, lines.length)
      ∧ (∀ (fl : Flags) (env : Env), env.openInput = .ok lines →
          interval fl.rateFlag = some d → 0 < fl.threadsFlag →
          (fl.outputFlag = "" ∨ ∃ u, env.createOutput = .ok u) →
          progressReports (main fl env).events =
            (List.range lines.length).map (fun k => (k + 1, lines.length)))
      ∧ dispatchLoop d (countLines lines 0) 0 lines =
          lines.enum.flatMap (fun p =>
            [Event.enqueue (addScheme p.2), Event.progress (p.1 + 1) lines.length 40,
              Event.sleep d])
      ∧ afterEnqueue (dispatchLoop d (countLines lines 0) 0 lines) =
          (List.range lines.length).map
            (fun k => some (Event.progress (k + 1) lines.length 40))
      ∧ (∀ (fl : Flags) (env : Env), env.openInput = .ok lines →
          interval fl.rateFlag = some d → 0 < fl.threadsFlag →
          (fl.outputFlag = "" ∨ ∃ u, env.createOutput = .ok u) →
          afterEnqueue (main fl env).events =
              (List.range lines.length).map
                (fun k => some (Event.progress (k + 1) lines.length 40))
            ∧ (enqueued (main fl env).events).length = lines.length) := by
  have hc : countLines lines 0 = lines.length := by simp [countLines_eq]
  have hp : progressReports (dispatchLoop d (countLines lines 0) 0 lines) =
      (List.range lines.length).map (fun k => (k + 1, lines.length)) := by
    rw [progressReports_dispatchLoop, hc]
    exact List.map_congr_left fun k _ => by simp
  have ha : ∀ tail, afterEnqueue (dispatchLoop d (countLines lines 0) 0 lines ++ tail) =
      (List.range lines.length).map
          (fun k => some (Event.progress (k + 1) lines.length 40)) ++ afterEnqueue tail := by
    intro tail
    rw [afterEnqueue_dispatchLoop, hc]
    exact congrArg₂ _ (List.map_congr_left fun k _ => by simp) rfl
  refine ⟨hp, ?_, ?_, ?_, ?_, ?_, ?_⟩
  · intro p hm
    rw [hp, List.mem_map] at hm
    obtain ⟨k, hk, rfl⟩ := hm
    have hk2 := List.mem_range.mp hk
    refine ⟨by simp, by simp only []; omega, rfl, ?_⟩
    have hpos : (0 : ℚ) < (lines.length : ℚ) := by exact_mod_cast hN
    rw [div_le_one hpos]
    exact_mod_cast (show k + 1 ≤ lines.length by omega)
  · rw [hp, List.getLast?_map, List.getLast?_range]
    have : lines.length ≠ 0 := by omega
    simp [this]
    omega
  · intro fl env hopen hrate hthreads hout
    obtain ⟨pre, hpre, _, hm⟩ := main_scan fl env lines d hopen hrate hthreads hout
    rw [hm]
    simp only []
    rw [progressReports_append, progressReports_append, hpre, hp]
    simp [progressReports]
  · rw [dispatchLoop_trace, hc]
    rfl
  · have h := ha []
    simpa [afterEnqueue] using h
  · intro fl env hopen hrate hthreads hout
    obtain ⟨pre, _, hpre, hm⟩ := main_scan fl env lines d hopen hrate hthreads hout
    rw [hm]
    simp only []
    constructor
    · rw [List.append_assoc, afterEnqueue_of_no_enqueue _ _ hpre, ha]
      simp [afterEnqueue]
    · rw [enqueued_append, enqueued_append, hpre, enqueued_dispatchLoop]
      simp [enqueued]

/-- C9, at the three-line input of the design document under the default flags: the
reports are `(1, 3), (2, 3), (3, 3)`, each made right after a send. -/
theorem progress_sequence_witness :
    progressReports (main flagsDefault envThreeLines).events = [(1, 3), (2, 3), (3, 3)]
      ∧ afterEnqueue (main flagsDefault envThreeLines).events =
          [some (Event.progress 1 3 40), some (Event.progress 2 3 40),
            some (Event.progress 3 3 40)] :=
  ⟨(progress_sequence 5000000 ["a.example", "http://b.example", "https://c.example"]
      (by decide)).2.2.2.1 flagsDefault envThreeLines rfl (by decide) (by decide)
      (Or.inl rfl),
    ((progress_sequence 5000000 ["a.example", "http://b.example", "https://c.example"]
      (by decide)).2.2.2.2.2.2 flagsDefault envThreeLines rfl (by decide) (by decide)
      (Or.inl rfl)).1⟩

/-! ## Pacing -/

theorem interval_of_pos (R : Int) (hR : 1 ≤ R) : interval R = some (Second / R) := by
  have h0 : R ≠ 0 := by omega
  simp only [interval, h0, if_false]
  rw [Int.tdiv_eq_ediv (by decide) (by omega)]

theorem hasEnqueue_dispatchLoop (d : Int) (totalLines currentLine : Nat) (lines : List String) :
    hasEnqueue (dispatchLoop d totalLines currentLine lines) = !lines.isEmpty := by
  cases lines <;> simp [dispatchLoop, hasEnqueue]

theorem pausesBetween_dispatchLoop (d : Int) (totalLines : Nat) (lines : List String) :
    ∀ currentLine, pausesBetween (dispatchLoop d totalLines currentLine lines) =
      List.replicate (lines.length - 1) d := by
  induction lines with
  | nil => intro _; rfl
  | cons line rest ih =>
    intro c
    simp only [dispatchLoop, pausesBetween, hasEnqueue_dispatchLoop, ih]
    cases rest with
    | nil => simp
    | cons l2 r2 => simp [List.replicate_succ]

/-- C5 as stated fails: at 3 hosts per second the requested pause is 333333333 ns, and
three of them are one nanosecond short of a second; the single pause between the two
enqueues of a two-line input is shorter than a third of a second. -/
theorem interval_not_exact :
    interval 3 = some 333333333
      ∧ (333333333 : Int) * 3 ≠ Second
      ∧ pausesBetween (dispatchLoop 333333333 2 0 ["a.example", "b.example"]) = [333333333]
      ∧ (pausesBetween (dispatchLoop 333333333 2 0 ["a.example", "b.example"])).sum * 3
          < (2 - 1) * Second
      ∧ ¬ (∀ R : Int, 1 ≤ R → ∃ d, interval R = some d ∧ d * R = Second) := by
  refine ⟨by decide, by decide, by decide, by decide, fun h => ?_⟩
  obtain ⟨d, hd, he⟩ := h 3 (by decide)
  have h3 : interval 3 = some 333333333 := by decide
  rw [h3] at hd
  cases hd
  revert he
  decide

/-- C5, amended. For every rate `R ≥ 1` the pause requested after each enqueue is
`floor(10^9 / R)` nanoseconds, that is `1/R` seconds rounded down to a whole nanosecond:
`d * R ≤ 10^9 < (d + 1) * R`, with `d * R = 10^9` exactly when `R` divides `10^9`. The
`N - 1` pauses between the first and the last of `N` enqueues are all equal to `d`;
their sum is at most `(N - 1) / R` seconds, falls short of it by at most one
nanosecond per pause, and reaches it exactly when `R` divides `10^9` or `N ≤ 1`. -/
theorem interval_floor (R : Int) (hR : 1 ≤ R) :
    ∃ d : Int, interval R = some d
      ∧ d * R ≤ Second ∧ Second < (d + 1) * R
      ∧ (d * R = Second ↔ R ∣ Second)
      ∧ ∀ (totalLines currentLine : Nat) (lines : List String),
          pausesBetween (dispatchLoop d totalLines currentLine lines) =
              List.replicate (lines.length - 1) d
            ∧ (pausesBetween (dispatchLoop d totalLines currentLine lines)).sum * R ≤
                ((lines.length - 1 : Nat) : Int) * Second
            ∧ ((lines.length - 1 : Nat) : Int) * Second ≤
                ((pausesBetween (dispatchLoop d totalLines currentLine lines)).sum +
                  ((lines.length - 1 : Nat) : Int)) * R
            ∧ (((lines.length - 1 : Nat) : Int) * Second ≤
                (pausesBetween (dispatchLoop d totalLines currentLine lines)).sum * R ↔
                  (R ∣ Second ∨ lines.length ≤ 1)) := by
  have hpos : 0 < R := by omega
  have h1 : Second / R * R ≤ Second := Int.ediv_mul_le _ (by omega)
  have h2 : Second < (Second / R + 1) * R := Int.lt_ediv_add_one_mul_self _ hpos
  have h3 : Second / R * R = Second ↔ R ∣ Second :=
    ⟨fun h => ⟨Second / R, by rw [mul_comm]; exact h.symm⟩, fun h => Int.ediv_mul_cancel h⟩
  refine ⟨Second / R, interval_of_pos R hR, h1, h2, h3, ?_⟩
  intro totalLines currentLine lines
  rw [pausesBetween_dispatchLoop, List.sum_replicate, nsmul_eq_mul]
  have hlen : lines.length ≤ 1 ↔ lines.length - 1 = 0 := by omega
  rw [hlen]
  generalize lines.length - 1 = m
  have hm : (0 : Int) ≤ (m : Int) := Int.ofNat_nonneg m
  refine ⟨rfl, ?_, ?_, ?_⟩
  · calc (m : Int) * (Second / R) * R = (m : Int) * (Second / R * R) := by ring
      _ ≤ (m : Int) * Second := Int.mul_le_mul_of_nonneg_left h1 hm
  · calc (m : Int) * Second ≤ (m : Int) * ((Second / R + 1) * R) :=
          Int.mul_le_mul_of_nonneg_left (le_of_lt h2) hm
      _ = ((m : Int) * (Second / R) + (m : Int)) * R := by ring
  · rcases Nat.eq_zero_or_pos m with h0 | hpm
    · subst h0
      simp
    · have hmp : (0 : Int) < (m : Int) := by exact_mod_cast hpm
      have hne : m ≠ 0 := by omega
      rw [mul_assoc, mul_le_mul_left hmp, ← h3]
      simp only [hne, or_false]
      exact ⟨fun h => le_antisymm h1 h, fun h => le_of_eq h.symm⟩


/-- C5, amended, at the default rate of 200 hosts per second: the pause is 5 ms. -/
theorem interval_floor_witness :
    (1 : Int) ≤ 200 ∧ ∃ d : Int, interval 200 = some d ∧ d * 200 ≤ Second
      ∧ Second < (d + 1) * 200 :=
  ⟨by decide, (interval_floor 200 (by decide)).imp fun _ h => ⟨h.1, h.2.1, h.2.2.1⟩⟩

/-- C10. For every rate `R ≥ 1` the division of line 101 does not fail and yields the
duration `d = floor(10^9 / R)` nanoseconds, the one integer with
`d * R ≤ 10^9 < (d + 1) * R`; it satisfies `0 ≤ d ≤ 10^9` (one second) and is zero
exactly when `R > 10^9`. Among the rates `R ≥ 0` the computation fails exactly at
`R = 0`. -/
theorem interval_safe :
    (∀ R : Int, 1 ≤ R →
        ∃ d : Int, interval R = some d
          ∧ d = ⌊(Second : ℚ) / (R : ℚ)⌋
          ∧ d * R ≤ Second ∧ Second < (d + 1) * R
          ∧ 0 ≤ d ∧ d ≤ Second
          ∧ (d = 0 ↔ Second < R))
      ∧ (∀ R : Int, 0 ≤ R → (interval R = none ↔ R = 0)) := by
  constructor
  · intro R hR
    have hpos : 0 < R := by omega
    refine ⟨Second / R, interval_of_pos R hR, ?_, Int.ediv_mul_le _ (by omega),
      Int.lt_ediv_add_one_mul_self _ hpos, Int.ediv_nonneg (by decide) (by omega),
      Int.ediv_le_self _ (by decide), ?_⟩
    · have hq : (0 : ℚ) < (R : ℚ) := by exact_mod_cast hpos
      symm
      rw [Int.floor_eq_iff, le_div_iff₀ hq, div_lt_iff₀ hq]
      constructor
      · exact_mod_cast Int.ediv_mul_le Second (show R ≠ 0 by omega)
      · exact_mod_cast Int.lt_ediv_add_one_mul_self Second hpos
    · constructor
      · intro h0
        by_contra hc
        have h1 : 1 ≤ Second / R :=
          Int.le_ediv_of_mul_le hpos (by omega)
        omega
      · intro hlt
        exact Int.ediv_eq_zero_of_lt (by decide) hlt
  · intro R _
    constructor
    · intro h
      by_contra hc
      simp [interval, hc] at h
    · rintro rfl
      rfl

/-- C10, at the default rate, at a rate above `10^9` and at rate zero. -/
theorem interval_safe_witness :
    (∃ d : Int, interval 200 = some d ∧ 0 ≤ d ∧ d ≤ Second)
      ∧ (∃ d : Int, interval 2000000000 = some d ∧ d = 0)
      ∧ interval 0 = none :=
  ⟨(interval_safe.1 200 (by decide)).imp fun _ h => ⟨h.1, h.2.2.2.2.1, h.2.2.2.2.2.1⟩,
    (interval_safe.1 2000000000 (by decide)).imp
      fun _ h => ⟨h.1, h.2.2.2.2.2.2.2 (by decide)⟩,
    (interval_safe.2 0 (by decide)).2 rfl⟩

/-! ## The worker pool -/

theorem exec_eagerSchedule (ws : List WorkerPc) (targets : List String) :
    ∀ inflight : List String,
      exec ⟨targets, WorkerPc.receiving :: ws, inflight⟩ (eagerSchedule targets) =
        some ⟨[], WorkerPc.receiving :: ws, inflight ++ targets⟩ := by
  induction targets with
  | nil => intro fl; simp [eagerSchedule, exec]
  | cons t rest ih =>
    intro fl
    simp [eagerSchedule, exec, step, ih]

/-- With at least one worker, every target can be in flight at once: the schedule in
which worker 0 receives each target and starts its goroutine before any probe returns
is a run of the pool, and it ends with as many probes in flight as there are targets. -/
theorem pool_all_inflight (threads : Nat) (targets : List String) (h : 1 ≤ threads) :
    ∃ p, exec (initPool threads targets) (eagerSchedule targets) = some p
      ∧ p.workers.length = threads ∧ p.inflight = targets := by
  obtain ⟨n, rfl⟩ : ∃ n, threads = n + 1 := ⟨threads - 1, by omega⟩
  refine ⟨⟨[], List.replicate (n + 1) WorkerPc.receiving, targets⟩, ?_, by simp, rfl⟩
  have := exec_eagerSchedule (List.replicate n WorkerPc.receiving) targets []
  simpa [initPool, List.replicate_succ] using this

/-- C4, at one worker and two targets: after worker 0 has received the first target and
started its goroutine, it receives the second and starts another one while the first
probe is still running, so two probes are in flight with a pool of one worker. The
bound `inflight ≤ workerCount` is therefore not an invariant of the pool. -/
theorem pool_exceeds_bound :
    exec (initPool 1 ["http://a.example", "http://b.example"])
        [Action.handoff 0, Action.spawn 0, Action.handoff 0, Action.spawn 0] =
      some ⟨[], [WorkerPc.receiving], ["http://a.example", "http://b.example"]⟩
      ∧ (initPool 1 ["http://a.example", "http://b.example"]).workers.length = 1
      ∧ ¬ (∀ (threads : Nat) (targets : List String) (schedule : List Action) (p : Pool),
            exec (initPool threads targets) schedule = some p →
            p.inflight.length ≤ threads) := by
  have h1 : exec (initPool 1 ["http://a.example", "http://b.example"])
      [Action.handoff 0, Action.spawn 0, Action.handoff 0, Action.spawn 0] =
      some ⟨[], [WorkerPc.receiving], ["http://a.example", "http://b.example"]⟩ := by
    decide
  refine ⟨h1, rfl, fun h => ?_⟩
  have h2 := h 1 _ _ _ h1
  revert h2
  decide


end Alpho
